import Mathlib

/-!
Shallow embedding of the core of the `bingo` peer-to-peer game client
(`src/bingo.js` and the message vocabulary of `src/relay.js`).

Randomness: in the source, `Math.random()` yields a real in `[0,1)` and
`generateRandomNumber(min,max)` computes `floor(random * (max-min+1)) + min`,
an integer in the inclusive range `[min,max]` when `min ≤ max`.  We abstract
the entropy source as a natural number `u` and realise the same set of
outcomes by `min + u % (max - min + 1)`; a stream of entropy is a function
`Nat → Nat`.  Loops that wait for the random source (unique draws, draws
excluding already-called numbers) are given explicit fuel and return
`Option`, `none` standing for non-termination within the fuel.

Timers (`setInterval` / `setTimeout`) are modelled as explicit state flags
(`callingActive`, `readyTimerActive`) and, for the claim-arbitration delay,
as an explicit `Scheduled` value carrying the delay in milliseconds.
UI-only effects (innerText, classList, button disabling) are not modelled.
-/

namespace Bingo

/-- The role field of the party object: `player` initially, possibly
promoted to `host`. -/
inductive Role
  | player
  | host
deriving DecidableEq, Repr

/-- `this.party` of `BingoApp`: the lobby state. `host` is the identity of
the current host (if known), `players` the roster in join order. -/
structure Party where
  host : Option String
  role : Role
  players : List String
deriving DecidableEq, Repr

/-- `this.game` of `BingoApp`.  The status is kept as the literal string
the source compares against. -/
structure Game where
  status : String
  card : List Int
  called : List Int
  disqualified : List String
deriving DecidableEq, Repr

/-- The per-peer mutable state of `BingoApp` that the verified handlers
touch: the party, the game, the `waitingToJoin` flag, and two timer flags
(`callingActive` for `callingInterval`, `readyTimerActive` for
`getReadyInterval`). -/
structure BingoState where
  party : Party
  game : Game
  waitingToJoin : Bool
  callingActive : Bool
  readyTimerActive : Bool
deriving DecidableEq, Repr

/-- Outbound broadcasts, mirroring the `send` helpers of `src/relay.js`. -/
inductive Msg
  | iamhost (clientID : String)
  | joined (clientID : String)
  | hold (clientID : String)
  | players (players : List String)
  | call (number : Int) (calledNumbers : List Int)
  | claimmade (claimer : String)
  | claimvalid (claimer : String)
  | claiminvalid (claimer : String)
deriving DecidableEq, Repr

/-- The `game` object built by `setInitialState`. -/
def initialGame : Game :=
  { status := "joining", card := [], called := [], disqualified := [] }

/-- `generateRandomNumber(min, max)`: `Math.floor(Math.random() * (max - min + 1)) + min`.
The entropy `u` abstracts one `Math.random()` draw; for `min ≤ max` the
result ranges over exactly the integers of `[min, max]`, as in the source. -/
def generateRandomNumber (min max : Int) (u : Nat) : Int :=
  min + (u : Int) % (max - min + 1)

/-- Loop body of `generateRandomNumbers`: while fewer than `length` numbers
are collected, draw one and push it unless it is already present
(`numbers.indexOf(r) === -1`).  `f` is the entropy stream, `i` the index of
the next draw, `acc` the `numbers` array, and the first argument the fuel. -/
def generateRandomNumbersAux (min max : Int) (length : Nat) (f : Nat → Nat) :
    Nat → Nat → List Int → Option (List Int)
  | 0, _, _ => none
  | fuel + 1, i, acc =>
    if length ≤ acc.length then some acc
    else
      let r := generateRandomNumber min max (f i)
      generateRandomNumbersAux min max length f fuel (i + 1)
        (if r ∈ acc then acc else acc ++ [r])

/-- `generateRandomNumbers(min, max, length)`: collects `length` distinct
random integers in `[min, max]`. -/
def generateRandomNumbers (min max : Int) (length : Nat) (f : Nat → Nat)
    (fuel : Nat) : Option (List Int) :=
  generateRandomNumbersAux min max length f fuel 0 []

/-- Loop body of `generateRandomNumberNotAlreadyCalled`: draw until a value
is found that is not in `array`.  The source initialises `number = false`
and loops `while (!number)`; since a drawn `0` is falsy in JS, a drawn `0`
never ends the loop either, hence the extra `r ≠ 0` acceptance condition. -/
def generateRandomNumberNotAlreadyCalledAux (min max : Int) (array : List Int)
    (f : Nat → Nat) : Nat → Nat → Option Int
  | 0, _ => none
  | fuel + 1, i =>
    let r := generateRandomNumber min max (f i)
    if r ∉ array ∧ r ≠ 0 then some r
    else generateRandomNumberNotAlreadyCalledAux min max array f fuel (i + 1)

/-- `generateRandomNumberNotAlreadyCalled(min, max, array)`. -/
def generateRandomNumberNotAlreadyCalled (min max : Int) (array : List Int)
    (f : Nat → Nat) (fuel : Nat) : Option Int :=
  generateRandomNumberNotAlreadyCalledAux min max array f fuel 0

/-- The row-chunking loop of `verifyClaim`:
`for (let i = 0; i < gamecard.length; i += 5) rows.push(gamecard.slice(i, i + 5))`.
Each pass takes the next five entries (fewer at the end, as `slice` clips). -/
def chunk5 : List Int → List (List Int)
  | [] => []
  | a :: b :: c :: d :: e :: rest => [a, b, c, d, e] :: chunk5 rest
  | l => [l]

/-- The column construction of `verifyClaim`:
`[...Array(5).keys()].map(column => gamecard.filter((_, i) => i % 5 === column))`. -/
def columnsOf (gamecard : List Int) : List (List Int) :=
  (List.range 5).map fun column =>
    ((gamecard.enum.filter fun p => p.1 % 5 == column).map Prod.snd)

/-- `verifyClaim(gamecard)` of `BingoApp`, with the ambient
`this.game.called` made an explicit argument: split the card into rows of
five and columns (index mod 5), and the claim is valid when any of these
lines has every number in `called`. -/
def verifyClaim (gamecard : List Int) (called : List Int) : Bool :=
  let rows := chunk5 gamecard
  let columns := columnsOf gamecard
  let cardRowsAndCols := rows ++ columns
  cardRowsAndCols.any fun line => line.all fun number => decide (number ∈ called)

/-- `addPlayer(playerId)`: push onto the roster (UI re-render not modelled). -/
def addPlayer (s : BingoState) (playerId : String) : BingoState :=
  { s with party := { s.party with players := s.party.players ++ [playerId] } }

/-- `becomeHost()`: set role and host to self, broadcast `iamhost`, clear
`waitingToJoin`, and add self to the roster. -/
def becomeHost (s : BingoState) (selfId : String) : BingoState × List Msg :=
  let s1 := { s with party := { s.party with role := Role.host, host := some selfId },
                     waitingToJoin := false }
  (addPlayer s1 selfId, [Msg.iamhost selfId])

/-- `possiblyAssumeHost()`: self-promote only when the roster is empty
(`this.party.players.length < 1`). -/
def possiblyAssumeHost (s : BingoState) (selfId : String) : BingoState × List Msg :=
  if s.party.players.length < 1 then becomeHost s selfId else (s, [])

/-- `commandJoinGame(command)`: host-only; while joining, add the requester,
acknowledge with `joined`, and broadcast the updated roster; otherwise send
`hold` (which carries the sender's own clientID). -/
def commandJoinGame (s : BingoState) (selfId clientID : String) :
    BingoState × List Msg :=
  if s.party.role = Role.host then
    if s.game.status = "joining" then
      let s1 := addPlayer s clientID
      (s1, [Msg.joined clientID, Msg.players s1.party.players])
    else
      (s, [Msg.hold selfId])
  else (s, [])

/-- `commandResetGame()`: re-run `setInitialState` (fresh game object) and
restart the `getReady` interval; everything else is untouched. -/
def commandResetGame (s : BingoState) : BingoState :=
  { s with game := initialGame, readyTimerActive := true }

/-- `commandUpdatePlayers(command)`: on a non-host, clear the roster and
re-add every received player in order; a host ignores the broadcast. -/
def commandUpdatePlayers (s : BingoState) (players : List String) : BingoState :=
  if s.party.role = Role.host then s
  else
    players.foldl addPlayer
      { s with party := { s.party with players := [] } }

/-- One tick of the `startCalling` interval: draw a not-yet-called number,
append it to `called`, broadcast it together with the full called list, and
pause the interval once 90 numbers have been called.  `none` when the draw
loop does not terminate within the fuel. -/
def callTick (s : BingoState) (f : Nat → Nat) (fuel : Nat) :
    Option (BingoState × List Msg) :=
  match generateRandomNumberNotAlreadyCalled 1 90 s.game.called f fuel with
  | none => none
  | some number =>
    let called1 := s.game.called ++ [number]
    let s1 := { s with game := { s.game with called := called1 } }
    let s2 := if called1.length = 90 then { s1 with callingActive := false } else s1
    some (s2, [Msg.call number called1])

/-- The outcome `commandClaim` schedules via `setTimeout`: the arbitration
broadcast, with its delay in milliseconds. -/
inductive Scheduled
  | claimValidAfter (delayMs : Int) (claimer : String)
  | claimInvalidAfter (delayMs : Int) (claimer : String)
deriving DecidableEq, Repr

/-- `commandClaim(command)`: host-only and ignored for disqualified
claimers; otherwise pause calling, broadcast `claimmade`, verify the card,
and schedule the outcome broadcast after `generateRandomNumber(4,8)` seconds
(valid) or `generateRandomNumber(3,6)` seconds (invalid).  `u` is the
entropy consumed by that delay draw. -/
def commandClaim (s : BingoState) (claimer : String) (gamecard : List Int)
    (u : Nat) : BingoState × List Msg × Option Scheduled :=
  if s.party.role = Role.host ∧ claimer ∉ s.game.disqualified then
    let s1 := { s with callingActive := false }
    if verifyClaim gamecard s.game.called then
      (s1, [Msg.claimmade claimer],
        some (Scheduled.claimValidAfter (generateRandomNumber 4 8 u * 1000) claimer))
    else
      (s1, [Msg.claimmade claimer],
        some (Scheduled.claimInvalidAfter (generateRandomNumber 3 6 u * 1000) claimer))
  else (s, [], none)

/-! Concrete states used to instantiate theorems with hypotheses. -/

/-- A host peer still in the joining phase, with one disqualified player. -/
def sampleHostState : BingoState :=
  { party := { host := some "h1", role := Role.host, players := ["h1", "p2"] },
    game := { status := "joining", card := [], called := [3, 7, 9],
              disqualified := ["pbad"] },
    waitingToJoin := false, callingActive := true, readyTimerActive := true }

/-- A freshly started peer: empty roster, still a player, waiting to join. -/
def freshState : BingoState :=
  { party := { host := none, role := Role.player, players := [] },
    game := initialGame, waitingToJoin := true, callingActive := false,
    readyTimerActive := true }

/-- The state of `sampleHostState` once the game is underway. -/
def samplePlayingState : BingoState :=
  { sampleHostState with game := { sampleHostState.game with status := "playing" } }

/-- `sampleHostState` after one draw tick fed with constant entropy 0. -/
def sampleAfterTick : BingoState :=
  { sampleHostState with
    game := { sampleHostState.game with called := [3, 7, 9, 1] } }

/-- The reading of the claim for a full row: row `k` of the card occupies
indices `5*k .. 5*k+4`. -/
def rowFullyCalled (gamecard called : List Int) (k : Nat) : Prop :=
  ∀ j < 5, gamecard.getD (5 * k + j) 0 ∈ called

/-- The reading of the claim for a full column: column `k` of the card
occupies the indices congruent to `k` mod 5, i.e. `k, k+5, k+10, k+15, k+20`. -/
def colFullyCalled (gamecard called : List Int) (k : Nat) : Prop :=
  ∀ j < 5, gamecard.getD (5 * j + k) 0 ∈ called

/-- Auxiliary: a bounded existential over `k < 5` is a five-way disjunction. -/
theorem exists_lt_five {P : Nat → Prop} :
    (∃ k, k < 5 ∧ P k) ↔ P 0 ∨ P 1 ∨ P 2 ∨ P 3 ∨ P 4 := by
  constructor
  · rintro ⟨k, hk, h⟩
    interval_cases k <;> tauto
  · rintro (h | h | h | h | h)
    exacts [⟨0, by omega, h⟩, ⟨1, by omega, h⟩, ⟨2, by omega, h⟩,
      ⟨3, by omega, h⟩, ⟨4, by omega, h⟩]

/-- Auxiliary: a bounded universal over `j < 5` is a five-way conjunction. -/
theorem forall_lt_five {P : Nat → Prop} :
    (∀ j, j < 5 → P j) ↔ P 0 ∧ P 1 ∧ P 2 ∧ P 3 ∧ P 4 := by
  constructor
  · intro h
    exact ⟨h 0 (by omega), h 1 (by omega), h 2 (by omega), h 3 (by omega),
      h 4 (by omega)⟩
  · rintro ⟨h0, h1, h2, h3, h4⟩ j hj
    interval_cases j <;> assumption

/-- Auxiliary: `verifyClaim` succeeds exactly when some row or some column
of the card has all its entries among the called numbers. -/
theorem verifyClaim_true_iff (gamecard called : List Int) :
    verifyClaim gamecard called = true ↔
      (∃ line ∈ chunk5 gamecard, ∀ n ∈ line, n ∈ called) ∨
      (∃ line ∈ columnsOf gamecard, ∀ n ∈ line, n ∈ called) := by
  simp [verifyClaim]

set_option maxHeartbeats 1000000 in
/-- Claim C1: for a 25-element gamecard, `verifyClaim` returns `true` if
and only if one of the five rows (index blocks of five) or one of the five
columns (index residues mod 5) has all five of its numbers in the called
list; diagonals play no part. -/
theorem verifyClaim_iff (gamecard called : List Int) (h : gamecard.length = 25) :
    verifyClaim gamecard called = true ↔
      (∃ k < 5, rowFullyCalled gamecard called k) ∨
      (∃ k < 5, colFullyCalled gamecard called k) := by
  rcases gamecard with _ | ⟨a0, _ | ⟨a1, _ | ⟨a2, _ | ⟨a3, _ | ⟨a4, _ | ⟨a5, _ | ⟨a6, _ | ⟨a7, _ | ⟨a8, _ | ⟨a9, _ | ⟨a10, _ | ⟨a11, _ | ⟨a12, _ | ⟨a13, _ | ⟨a14, _ | ⟨a15, _ | ⟨a16, _ | ⟨a17, _ | ⟨a18, _ | ⟨a19, _ | ⟨a20, _ | ⟨a21, _ | ⟨a22, _ | ⟨a23, _ | ⟨a24, _ | ⟨a25, rest⟩⟩⟩⟩⟩⟩⟩⟩⟩⟩⟩⟩⟩⟩⟩⟩⟩⟩⟩⟩⟩⟩⟩⟩⟩⟩
  all_goals simp only [List.length_cons, List.length_nil] at h
  all_goals try omega
  have hrows : chunk5 [a0,a1,a2,a3,a4,a5,a6,a7,a8,a9,a10,a11,a12,a13,a14,a15,a16,a17,a18,a19,a20,a21,a22,a23,a24] =
      [[a0,a1,a2,a3,a4],[a5,a6,a7,a8,a9],[a10,a11,a12,a13,a14],[a15,a16,a17,a18,a19],[a20,a21,a22,a23,a24]] := rfl
  have hcols : columnsOf [a0,a1,a2,a3,a4,a5,a6,a7,a8,a9,a10,a11,a12,a13,a14,a15,a16,a17,a18,a19,a20,a21,a22,a23,a24] =
      [[a0,a5,a10,a15,a20],[a1,a6,a11,a16,a21],[a2,a7,a12,a17,a22],[a3,a8,a13,a18,a23],[a4,a9,a14,a19,a24]] := by
    simp [columnsOf, List.enum, List.enumFrom,
      show List.range 5 = [0, 1, 2, 3, 4] from rfl, List.filter_cons]
  rw [verifyClaim_true_iff, hrows, hcols]
  simp only [rowFullyCalled, colFullyCalled, exists_lt_five, forall_lt_five]
  simp only [List.mem_cons, List.not_mem_nil, or_false, List.forall_mem_cons,
    List.forall_mem_ne, List.getD_cons_zero, List.getD_cons_succ]
  simp

/-- Witness for C1: a card `1..25` whose last row is exactly the called
list is judged a winner, through the equivalence. -/
theorem verifyClaim_iff_witness :
    (([1, 2, 3, 4, 5, 6, 7, 8, 9, 10, 11, 12, 13, 14, 15, 16, 17, 18, 19,
        20, 21, 22, 23, 24, 25] : List Int).length = 25) ∧
    (verifyClaim
        [1, 2, 3, 4, 5, 6, 7, 8, 9, 10, 11, 12, 13, 14, 15, 16, 17, 18, 19,
          20, 21, 22, 23, 24, 25] [21, 22, 23, 24, 25] = true ↔
      (∃ k < 5, rowFullyCalled
        [1, 2, 3, 4, 5, 6, 7, 8, 9, 10, 11, 12, 13, 14, 15, 16, 17, 18, 19,
          20, 21, 22, 23, 24, 25] [21, 22, 23, 24, 25] k) ∨
      (∃ k < 5, colFullyCalled
        [1, 2, 3, 4, 5, 6, 7, 8, 9, 10, 11, 12, 13, 14, 15, 16, 17, 18, 19,
          20, 21, 22, 23, 24, 25] [21, 22, 23, 24, 25] k)) :=
  ⟨rfl, verifyClaim_iff _ _ rfl⟩

/-- Auxiliary: folding `addPlayer` over a list appends it to the roster and
changes nothing else. -/
theorem foldl_addPlayer (ps : List String) (s : BingoState) :
    ps.foldl addPlayer s =
      { s with party := { s.party with players := s.party.players ++ ps } } := by
  induction ps generalizing s with
  | nil => simp
  | cons p ps ih => simp [addPlayer, ih]

/-- Claim C3: on a host, a join request during the joining phase appends the
requester to the roster and sends a `joined` acknowledgment carrying the
requester plus a broadcast of the full updated roster; outside the joining
phase a `hold` reply is sent and the roster is unchanged. -/
theorem commandJoinGame_gating (s : BingoState) (selfId c : String)
    (hrole : s.party.role = Role.host) :
    (s.game.status = "joining" →
      (commandJoinGame s selfId c).1.party.players = s.party.players ++ [c] ∧
      (commandJoinGame s selfId c).2 =
        [Msg.joined c, Msg.players (s.party.players ++ [c])]) ∧
    (s.game.status ≠ "joining" →
      (commandJoinGame s selfId c).1 = s ∧
      (commandJoinGame s selfId c).2 = [Msg.hold selfId]) := by
  by_cases hs : s.game.status = "joining" <;>
    simp [commandJoinGame, addPlayer, hrole, hs]

/-- Witness for C3 at concrete states in both phases. -/
theorem commandJoinGame_gating_witness :
    ((commandJoinGame sampleHostState "h1" "p3").1.party.players =
        ["h1", "p2", "p3"] ∧
      (commandJoinGame sampleHostState "h1" "p3").2 =
        [Msg.joined "p3", Msg.players ["h1", "p2", "p3"]]) ∧
    ((commandJoinGame samplePlayingState "h1" "p3").1 = samplePlayingState ∧
      (commandJoinGame samplePlayingState "h1" "p3").2 = [Msg.hold "h1"]) :=
  ⟨(commandJoinGame_gating sampleHostState "h1" "p3" rfl).1 rfl,
   (commandJoinGame_gating samplePlayingState "h1" "p3" rfl).2 (by decide)⟩

/-- Claim C4: a claim from an already-disqualified peer has no effect at
all: state (in particular the draw-loop pause flag) is unchanged, no
broadcast is sent, and no outcome is scheduled. -/
theorem commandClaim_disqualified_no_effect (s : BingoState) (claimer : String)
    (gamecard : List Int) (u : Nat) (h : claimer ∈ s.game.disqualified) :
    commandClaim s claimer gamecard u = (s, [], none) := by
  simp [commandClaim, h]

/-- Witness for C4: the disqualified player of `sampleHostState` claims. -/
theorem commandClaim_disqualified_no_effect_witness :
    commandClaim sampleHostState "pbad" [3, 7, 9] 0 = (sampleHostState, [], none) :=
  commandClaim_disqualified_no_effect sampleHostState "pbad" [3, 7, 9] 0 (by decide)

/-- Claim C5: if the host-election timeout fires on an empty roster the peer
self-promotes (role `host`, hostId itself, an `iamhost` broadcast, itself as
sole roster entry); on a non-empty roster nothing changes and nothing is
sent. -/
theorem possiblyAssumeHost_gating (s : BingoState) (selfId : String) :
    (s.party.players = [] →
      possiblyAssumeHost s selfId =
        ({ s with party := { s.party with host := some selfId, role := Role.host, players := [selfId] }, waitingToJoin := false },
          [Msg.iamhost selfId])) ∧
    (s.party.players ≠ [] → possiblyAssumeHost s selfId = (s, [])) := by
  constructor
  · intro h
    simp [possiblyAssumeHost, becomeHost, addPlayer, h]
  · intro h
    have : s.party.players.length ≠ 0 := by
      simpa [List.length_eq_zero] using h
    simp [possiblyAssumeHost, Nat.lt_one_iff, this]

/-- Witness for C5: a fresh peer with empty roster self-promotes. -/
theorem possiblyAssumeHost_gating_witness :
    possiblyAssumeHost freshState "me" =
      ({ freshState with party := { freshState.party with host := some "me", role := Role.host, players := ["me"] }, waitingToJoin := false },
        [Msg.iamhost "me"]) :=
  (possiblyAssumeHost_gating freshState "me").1 rfl

/-- Claim C6: `commandResetGame` restores the game to its initial values
and restarts the ready-poll timer while leaving the party (players, hostId,
role) unchanged. -/
theorem commandResetGame_frame (s : BingoState) :
    (commandResetGame s).game.card = [] ∧
    (commandResetGame s).game.called = [] ∧
    (commandResetGame s).game.disqualified = [] ∧
    (commandResetGame s).game.status = "joining" ∧
    (commandResetGame s).readyTimerActive = true ∧
    (commandResetGame s).party = s.party := by
  simp [commandResetGame, initialGame]

/-- Claim C7: a roster broadcast replaces a non-host peer's roster with
exactly the received list, is idempotent, and leaves a host's state
unchanged. -/
theorem commandUpdatePlayers_replace_idempotent (s : BingoState)
    (ps : List String) :
    (s.party.role ≠ Role.host →
      (commandUpdatePlayers s ps).party.players = ps) ∧
    (s.party.role = Role.host → commandUpdatePlayers s ps = s) ∧
    commandUpdatePlayers (commandUpdatePlayers s ps) ps =
      commandUpdatePlayers s ps := by
  by_cases hr : s.party.role = Role.host
  · simp [commandUpdatePlayers, hr]
  · simp [commandUpdatePlayers, hr, foldl_addPlayer]

/-- Witness for C7 at a concrete non-host state. -/
theorem commandUpdatePlayers_replace_idempotent_witness :
    (commandUpdatePlayers freshState ["a", "b"]).party.players = ["a", "b"] ∧
    commandUpdatePlayers (commandUpdatePlayers freshState ["a", "b"]) ["a", "b"] =
      commandUpdatePlayers freshState ["a", "b"] :=
  ⟨(commandUpdatePlayers_replace_idempotent freshState ["a", "b"]).1 (by decide),
   (commandUpdatePlayers_replace_idempotent freshState ["a", "b"]).2.2⟩

/-- Claim C10: a claim with an empty gamecard is always judged valid: the
five column partitions of an empty card are empty, the every-element check
on an empty line is vacuously true, so `verifyClaim` returns `true` for
every called list, and a non-disqualified claimer with an empty card always
gets a `claimvalid` outcome scheduled. -/
theorem verifyClaim_empty_card_always_valid (called : List Int)
    (s : BingoState) (claimer : String) (u : Nat)
    (hrole : s.party.role = Role.host)
    (hdq : claimer ∉ s.game.disqualified) :
    verifyClaim [] called = true ∧
      (commandClaim s claimer [] u).2.2 =
        some (Scheduled.claimValidAfter
          (generateRandomNumber 4 8 u * 1000) claimer) := by
  refine ⟨rfl, ?_⟩
  have hv : verifyClaim [] s.game.called = true := rfl
  simp [commandClaim, hrole, hdq, hv]

/-- Witness for C10: an empty card against concrete called numbers. -/
theorem verifyClaim_empty_card_always_valid_witness :
    verifyClaim [] [(3 : Int), 7, 9] = true ∧
      (commandClaim sampleHostState "p2" [] 1).2.2 =
        some (Scheduled.claimValidAfter
          (generateRandomNumber 4 8 1 * 1000) "p2") :=
  verifyClaim_empty_card_always_valid [3, 7, 9] sampleHostState "p2" 1 rfl
    (by decide)

/-- Auxiliary: one abstracted draw always lands in the inclusive range. -/
theorem generateRandomNumber_bounds (min max : Int) (u : Nat) (h : min ≤ max) :
    min ≤ generateRandomNumber min max u ∧ generateRandomNumber min max u ≤ max := by
  have hne : max - min + 1 ≠ 0 := by omega
  have h1 : 0 ≤ (u : Int) % (max - min + 1) := Int.emod_nonneg _ hne
  have h2 : (u : Int) % (max - min + 1) < max - min + 1 :=
    Int.emod_lt_of_pos _ (by omega)
  unfold generateRandomNumber
  omega

/-- Auxiliary: invariant-preservation of the unique-draw loop: starting
from a duplicate-free accumulator of in-range numbers no longer than the
target, a successful run returns exactly `length` duplicate-free numbers in
`[min, max]`. -/
theorem generateRandomNumbersAux_spec (min max : Int) (length : Nat)
    (f : Nat → Nat) (hmm : min ≤ max) :
    ∀ fuel i acc ns, acc.Nodup → (∀ x ∈ acc, min ≤ x ∧ x ≤ max) →
      acc.length ≤ length →
      generateRandomNumbersAux min max length f fuel i acc = some ns →
      ns.length = length ∧ ns.Nodup ∧ ∀ x ∈ ns, min ≤ x ∧ x ≤ max := by
  intro fuel
  induction fuel with
  | zero =>
    intro i acc ns _ _ _ h
    simp [generateRandomNumbersAux] at h
  | succ fuel ih =>
    intro i acc ns hnd hrange hlen h
    simp only [generateRandomNumbersAux] at h
    by_cases hfull : length ≤ acc.length
    · rw [if_pos hfull] at h
      obtain rfl : acc = ns := by simpa using h
      exact ⟨le_antisymm hlen hfull, hnd, hrange⟩
    · rw [if_neg hfull] at h
      by_cases hmem : generateRandomNumber min max (f i) ∈ acc
      · exact ih (i + 1) acc ns hnd hrange hlen (by simpa [hmem] using h)
      · refine ih (i + 1) (acc ++ [generateRandomNumber min max (f i)]) ns
          ?_ ?_ ?_ (by simpa [hmem] using h)
        · simp [List.nodup_append, hnd, hmem]
        · intro x hx
          rcases List.mem_append.mp hx with hx | hx
          · exact hrange x hx
          · obtain rfl : x = generateRandomNumber min max (f i) := by simpa using hx
            exact generateRandomNumber_bounds min max (f i) hmm
        · have : acc.length < length := by omega
          simpa using this

/-- Claim C2: for `min ≤ max` and a requested length at most the range
size, any terminating run of `generateRandomNumbers` returns exactly
`length` pairwise-distinct integers, each within `[min, max]`. -/
theorem generateRandomNumbers_spec (min max : Int) (length : Nat)
    (f : Nat → Nat) (fuel : Nat) (ns : List Int) (hmm : min ≤ max)
    (_hlen : (length : Int) ≤ max - min + 1)
    (h : generateRandomNumbers min max length f fuel = some ns) :
    ns.length = length ∧ ns.Nodup ∧ ∀ x ∈ ns, min ≤ x ∧ x ≤ max :=
  generateRandomNumbersAux_spec min max length f hmm fuel 0 [] ns
    (by simp) (by simp) (by simp) h

/-- Witness for C2: drawing three distinct numbers from `[1, 3]` with the
identity entropy stream terminates with `[1, 2, 3]`. -/
theorem generateRandomNumbers_spec_witness :
    (1 : Int) ≤ 3 ∧ ((3 : Nat) : Int) ≤ 3 - 1 + 1 ∧
    generateRandomNumbers 1 3 3 (fun n => n) 10 = some [1, 2, 3] ∧
    (([1, 2, 3] : List Int).length = 3 ∧ ([1, 2, 3] : List Int).Nodup ∧
      ∀ x ∈ ([1, 2, 3] : List Int), 1 ≤ x ∧ x ≤ 3) :=
  ⟨by decide, by decide, rfl,
    generateRandomNumbers_spec 1 3 3 (fun n => n) 10 [1, 2, 3]
      (by decide) (by decide) rfl⟩

/-- Auxiliary: a successful excluding draw is outside the exclusion list,
nonzero, and in range whenever `min ≤ max`. -/
theorem generateRandomNumberNotAlreadyCalledAux_spec (min max : Int)
    (array : List Int) (f : Nat → Nat) :
    ∀ fuel i n,
      generateRandomNumberNotAlreadyCalledAux min max array f fuel i = some n →
      n ∉ array ∧ n ≠ 0 ∧ (min ≤ max → min ≤ n ∧ n ≤ max) := by
  intro fuel
  induction fuel with
  | zero =>
    intro i n h
    simp [generateRandomNumberNotAlreadyCalledAux] at h
  | succ fuel ih =>
    intro i n h
    simp only [generateRandomNumberNotAlreadyCalledAux] at h
    by_cases hc : generateRandomNumber min max (f i) ∉ array ∧
        generateRandomNumber min max (f i) ≠ 0
    · rw [if_pos hc] at h
      obtain rfl : generateRandomNumber min max (f i) = n := by simpa using h
      exact ⟨hc.1, hc.2, fun hmm => generateRandomNumber_bounds min max (f i) hmm⟩
    · rw [if_neg hc] at h
      exact ih (i + 1) n h

/-- Claim C8: a draw tick on a host whose called list is duplicate-free,
within `[1, 90]`, and shorter than 90 appends exactly one fresh number of
`[1, 90]`, broadcasts it with the full called list, keeps the list
duplicate-free, in range and of length at most 90, and pauses the loop the
moment the list reaches 90 entries. -/
theorem callTick_invariant (s : BingoState) (f : Nat → Nat) (fuel : Nat)
    (s1 : BingoState) (msgs : List Msg)
    (hnd : s.game.called.Nodup)
    (hrange : ∀ x ∈ s.game.called, 1 ≤ x ∧ x ≤ 90)
    (hlen : s.game.called.length < 90)
    (h : callTick s f fuel = some (s1, msgs)) :
    ∃ n, 1 ≤ n ∧ n ≤ 90 ∧ n ∉ s.game.called ∧
      s1.game.called = s.game.called ++ [n] ∧ s1.game.called.Nodup ∧
      (∀ x ∈ s1.game.called, 1 ≤ x ∧ x ≤ 90) ∧
      s1.game.called.length ≤ 90 ∧
      msgs = [Msg.call n s1.game.called] ∧
      (s1.game.called.length = 90 → s1.callingActive = false) := by
  unfold callTick at h
  cases hgen : generateRandomNumberNotAlreadyCalled 1 90 s.game.called f fuel with
  | none => rw [hgen] at h; simp at h
  | some n =>
    rw [hgen] at h
    dsimp only at h
    obtain ⟨hnotmem, _hne0, hbounds⟩ :=
      generateRandomNumberNotAlreadyCalledAux_spec 1 90 s.game.called f fuel 0 n hgen
    obtain ⟨h1, h90⟩ := hbounds (by omega)
    refine ⟨n, h1, h90, hnotmem, ?_⟩
    by_cases hfull : (s.game.called ++ [n]).length = 90
    · rw [if_pos hfull] at h
      obtain ⟨rfl, rfl⟩ : _ ∧ _ := by
        simpa using h
      refine ⟨rfl, ?_, ?_, ?_, rfl, fun _ => rfl⟩
      · simp [List.nodup_append, hnd, hnotmem]
      · intro x hx
        rcases List.mem_append.mp hx with hx | hx
        · exact hrange x hx
        · obtain rfl : x = n := by simpa using hx
          exact ⟨h1, h90⟩
      · simp at hfull ⊢
        omega
    · rw [if_neg hfull] at h
      obtain ⟨rfl, rfl⟩ : _ ∧ _ := by
        simpa using h
      refine ⟨rfl, ?_, ?_, ?_, rfl, fun hco => absurd hco hfull⟩
      · simp [List.nodup_append, hnd, hnotmem]
      · intro x hx
        rcases List.mem_append.mp hx with hx | hx
        · exact hrange x hx
        · obtain rfl : x = n := by simpa using hx
          exact ⟨h1, h90⟩
      · simp
        omega

/-- Witness for C8: one tick on `sampleHostState` with constant entropy 0
draws 1 and appends it. -/
theorem callTick_invariant_witness :
    ∃ n, 1 ≤ n ∧ n ≤ 90 ∧ n ∉ sampleHostState.game.called ∧
      sampleAfterTick.game.called = sampleHostState.game.called ++ [n] ∧
      sampleAfterTick.game.called.Nodup ∧
      (∀ x ∈ sampleAfterTick.game.called, 1 ≤ x ∧ x ≤ 90) ∧
      sampleAfterTick.game.called.length ≤ 90 ∧
      [Msg.call 1 [3, 7, 9, 1]] = [Msg.call n sampleAfterTick.game.called] ∧
      (sampleAfterTick.game.called.length = 90 →
        sampleAfterTick.callingActive = false) :=
  callTick_invariant sampleHostState (fun _ => 0) 5 sampleAfterTick
    [Msg.call 1 [3, 7, 9, 1]] (by decide) (by decide) (by decide) rfl

/-- Counterexample to C9 as stated: with entropy 4 the valid-claim delay
comes out as exactly 8000 ms, which lies outside the half-open interval
`[4, 8)` seconds the claim asserts (`generateRandomNumber(4, 8)` is
inclusive of 8). -/
theorem commandClaim_delay_counterexample :
    (commandClaim sampleHostState "p2" [] 4).2.2 =
      some (Scheduled.claimValidAfter 8000 "p2") ∧
    ¬ (8000 : Int) < 8 * 1000 := by
  exact ⟨by decide, by decide⟩

/-- Claim C9 (amended): when the host arbitrates a non-disqualified claim,
the outcome broadcast is scheduled after a whole number of seconds drawn
from the inclusive range `[4, 8]` seconds when the claim is valid and from
the inclusive range `[3, 6]` seconds when it is invalid. -/
theorem commandClaim_delay_ranges (s : BingoState) (claimer : String)
    (gamecard : List Int) (u : Nat) (hrole : s.party.role = Role.host)
    (hdq : claimer ∉ s.game.disqualified) :
    (verifyClaim gamecard s.game.called = true →
      ∃ d, (commandClaim s claimer gamecard u).2.2 =
          some (Scheduled.claimValidAfter d claimer) ∧
        4 * 1000 ≤ d ∧ d ≤ 8 * 1000 ∧ d % 1000 = 0) ∧
    (verifyClaim gamecard s.game.called = false →
      ∃ d, (commandClaim s claimer gamecard u).2.2 =
          some (Scheduled.claimInvalidAfter d claimer) ∧
        3 * 1000 ≤ d ∧ d ≤ 6 * 1000 ∧ d % 1000 = 0) := by
  have h48 := generateRandomNumber_bounds 4 8 u (by omega)
  have h36 := generateRandomNumber_bounds 3 6 u (by omega)
  constructor
  · intro hv
    refine ⟨generateRandomNumber 4 8 u * 1000, ?_, by omega, by omega,
      Int.mul_emod_left _ _⟩
    simp [commandClaim, hrole, hdq, hv]
  · intro hv
    refine ⟨generateRandomNumber 3 6 u * 1000, ?_, by omega, by omega,
      Int.mul_emod_left _ _⟩
    simp [commandClaim, hrole, hdq, hv]

/-- Witness for C9 (amended): entropy 0 schedules a 4000 ms valid-claim
delay for an empty (always winning) card. -/
theorem commandClaim_delay_ranges_witness :
    ∃ d, (commandClaim sampleHostState "p2" [] 0).2.2 =
        some (Scheduled.claimValidAfter d "p2") ∧
      4 * 1000 ≤ d ∧ d ≤ 8 * 1000 ∧ d % 1000 = 0 :=
  (commandClaim_delay_ranges sampleHostState "p2" [] 0 rfl (by decide)).1 rfl

end Bingo
